import Mathlib

/-!
Verification of the natural-language specification of the sqlite-chatbot
repository against a shallow embedding of its source code.

Python strings are modelled as `List Char`.  Each definition mirrors one
function of the source (`src/llm/gemini_api.py`, `src/database/connector.py`,
`src/utils/query_processor.py`, `src/llm/prompt_builder.py`); the regular
expressions used by the source are small and are translated into explicit
recursions with the same matching semantics.  All definitions are executable,
so concrete runs are settled by `decide` / `rfl`.
-/

/-- Python strings as lists of characters. -/
abbrev Str := List Char

/-- Model of Python `str.isspace` / the regex class `\s` (ASCII range):
space, tab, newline, carriage return, vertical tab, form feed. -/
def pyIsSpace (c : Char) : Bool :=
  c = ' ' || c = '\t' || c = '\n' || c = '\r' || c = Char.ofNat 11 || c = Char.ofNat 12

/-- Left part of Python `str.strip()`: drop leading whitespace. -/
def stripLeft (l : Str) : Str := l.dropWhile pyIsSpace

/-- Right part of Python `str.strip()`: drop trailing whitespace. -/
def stripRight (l : Str) : Str := (l.reverse.dropWhile pyIsSpace).reverse

/-- Model of Python `str.strip()` (no arguments): trim whitespace at both ends. -/
def pyStrip (l : Str) : Str := stripRight (stripLeft l)

/-- Model of Python `str.upper()` on ASCII text. -/
def pyUpper (l : Str) : Str := l.map Char.toUpper

/-- Model of Python `str.lower()` on ASCII text. -/
def pyLower (l : Str) : Str := l.map Char.toLower

/-- Number of positions at which `pat` occurs in `l` (occurrences may overlap).
For the patterns used by the source (`"PRAGMA"`, `"--"`, `"/*"`, fences) this
is the natural occurrence count; `hasSub` below is defined from it. -/
def countOcc (l : Str) (pat : Str) : Nat :=
  match l with
  | [] => 0
  | _ :: t => (if pat.isPrefixOf l then 1 else 0) + countOcc t pat

/-- Model of Python `pat in s` (substring test) for nonempty `pat`. -/
def hasSub (l : Str) (pat : Str) : Bool := countOcc l pat ≠ 0

/-- Model of Python `str.count(pat)` for a nonempty pattern: leftmost,
non-overlapping occurrences, skipping the matched text.  The fuel argument
only bounds the recursion; `pyCount` supplies `l.length + 1`, which is enough
because every step consumes at least one character. -/
def pyCountAux (pat : Str) : Nat → Str → Nat
  | 0, _ => 0
  | _ + 1, [] => 0
  | fuel + 1, c :: t =>
    if pat.isPrefixOf (c :: t) then 1 + pyCountAux pat fuel ((c :: t).drop pat.length)
    else pyCountAux pat fuel t

def pyCount (l : Str) (pat : Str) : Nat := pyCountAux pat (l.length + 1) l

/-- Model of Python `str.split(c)` for a single-character separator. -/
def splitCh (c : Char) : Str → List Str
  | [] => [[]]
  | x :: r =>
    if x = c then [] :: splitCh c r
    else
      match splitCh c r with
      | [] => [[x]]
      | h :: t => (x :: h) :: t

/-- Model of Python `c.join(parts)` for a single-character separator. -/
def joinWith (c : Char) : List Str → Str
  | [] => []
  | [x] => x
  | x :: y :: t => x ++ c :: joinWith c (y :: t)

/-- Truncate a list at the first occurrence of `pat` (the occurrence and
everything after it are dropped); identity when `pat` does not occur. -/
def truncAt (pat : Str) : Str → Str
  | [] => []
  | c :: t => if pat.isPrefixOf (c :: t) then [] else c :: truncAt pat t

/-- Model of `re.sub(r"--.*$", "", q, flags=re.MULTILINE)`: on each line,
everything from the first `--` to the end of the line is removed. -/
def stripLineComments (l : Str) : Str :=
  joinWith '\n' ((splitCh '\n' l).map (truncAt ['-', '-']))

/-- Drop through the first `*/` of the input, returning the suffix after it,
or `none` when no `*/` occurs. -/
def scanClose : Str → Option Str
  | [] => none
  | '*' :: '/' :: r => some r
  | _ :: r => scanClose r

/-- Split at the leftmost `/*`: returns the text before it and the text after
it, or `none` when no `/*` occurs. -/
def findOpen : Str → Option (Str × Str)
  | [] => none
  | [_] => none
  | c :: c2 :: r =>
    if c = '/' ∧ c2 = '*' then some ([], r)
    else (findOpen (c2 :: r)).map (fun p => (c :: p.1, p.2))

/-- Model of `re.sub(r"/\*.*?\*/", "", q, flags=re.DOTALL)`: repeatedly remove
the leftmost `/*`, non-greedily matched up to the nearest following `*/`, and
continue scanning after the removed match.  A `/*` with no later `*/` matches
nothing, so everything from the leftmost `/*` on is kept verbatim.  The fuel
argument only bounds the recursion (each removal consumes characters);
`stripBlockComments` supplies `l.length + 1`. -/
def stripBCAux : Nat → Str → Str
  | 0, l => l
  | fuel + 1, l =>
    match findOpen l with
    | none => l
    | some (pre, rest) =>
      match scanClose rest with
      | none => l
      | some rest2 => pre ++ stripBCAux fuel rest2

def stripBlockComments (l : Str) : Str := stripBCAux (l.length + 1) l

/-- Model of Python `s.split(sep)` for a nonempty separator: leftmost,
non-overlapping matches.  Fuel-bounded recursion as above. -/
def splitStrAux (sep : Str) : Nat → Str → Str → List Str
  | 0, l, acc => [acc.reverse ++ l]
  | fuel + 1, l, acc =>
    if sep.isPrefixOf l then acc.reverse :: splitStrAux sep fuel (l.drop sep.length) []
    else
      match l with
      | [] => [acc.reverse]
      | c :: r => splitStrAux sep fuel r (c :: acc)

def pySplitStr (l : Str) (sep : Str) : List Str := splitStrAux sep (l.length + 1) l []

/-- Python `l[-n:]` for `n > 0`: the last `n` elements (all of them when the
list is shorter). -/
def takeLastN (n : Nat) (l : List α) : List α := l.drop (l.length - n)

/-!
## LLM client — `src/llm/gemini_api.py`
-/

/-- Try to match the regex `PRAGMA\s+[^;]+;` (with `re.IGNORECASE`) at the
head of `l`.  After the case-insensitive literal `PRAGMA`, the combination
`\s+[^;]+` matches exactly a `;`-free run of length at least two whose first
character is whitespace, extending (greedily) to the first following `;`.
On success, returns the matched slice (original casing) and the remainder. -/
def matchPragmaAt (l : Str) : Option (Str × Str) :=
  if 6 ≤ l.length ∧ pyUpper (l.take 6) = ['P', 'R', 'A', 'G', 'M', 'A'] then
    let rest := l.drop 6
    let pre := rest.takeWhile (· ≠ ';')
    if 2 ≤ pre.length ∧ pyIsSpace (pre.headD ' ') ∧ pre.length < rest.length then
      some (l.take (6 + pre.length + 1), l.drop (6 + pre.length + 1))
    else none
  else none

/-- Model of `re.split(r"(PRAGMA\s+[^;]+;)", q, flags=re.IGNORECASE)`:
the pieces between matches alternate with the captured matches themselves.
Fuel-bounded scan; `pragmaSplit` supplies `l.length + 1`. -/
def pragmaSplitAux : Nat → Str → Str → List Str
  | 0, l, acc => [acc.reverse ++ l]
  | fuel + 1, l, acc =>
    match matchPragmaAt l with
    | some (m, rest) => acc.reverse :: m :: pragmaSplitAux fuel rest []
    | none =>
      match l with
      | [] => [acc.reverse]
      | c :: r => pragmaSplitAux fuel r (c :: acc)

def pragmaSplit (l : Str) : List Str := pragmaSplitAux (l.length + 1) l []

/-- Model of `GeminiAPI._clean_sql_query` (src/llm/gemini_api.py:170-201):
removes `--` line comments, then `/*...*/` block comments; if the upper-cased
result contains `PRAGMA` more than once, returns the first segment of the
`re.split` around full `PRAGMA ...;` statements whose strip is nonempty;
otherwise, when a `;` is present and the text before the first `;` is
non-blank, returns that text (stripped) with `;` appended; otherwise returns
the comment-stripped text unchanged. -/
def cleanSqlQuery (query : Str) : Str :=
  let q := stripBlockComments (stripLineComments query)
  if pyCount (pyUpper q) ['P', 'R', 'A', 'G', 'M', 'A'] > 1 then
    match (pragmaSplit q).filter (fun p => pyStrip p ≠ []) with
    | p :: _ => pyStrip p
    | [] =>
      if ';' ∈ q then
        if pyStrip ((splitCh ';' q).headD []) ≠ [] then
          pyStrip ((splitCh ';' q).headD []) ++ [';']
        else q
      else q
  else
    if ';' ∈ q then
      if pyStrip ((splitCh ';' q).headD []) ≠ [] then
        pyStrip ((splitCh ';' q).headD []) ++ [';']
      else q
    else q

/-- The SQL keyword alternation `SELECT|INSERT|UPDATE|DELETE|CREATE|ALTER|DROP|PRAGMA`
searched (case-insensitively) inside generic code fences. -/
def fenceKeywordList : List Str :=
  [['S','E','L','E','C','T'], ['I','N','S','E','R','T'], ['U','P','D','A','T','E'],
   ['D','E','L','E','T','E'], ['C','R','E','A','T','E'], ['A','L','T','E','R'],
   ['D','R','O','P'], ['P','R','A','G','M','A']]

/-- Model of `re.search(r"SELECT|INSERT|...|PRAGMA", text, re.IGNORECASE)`:
some keyword occurs somewhere in the upper-cased text. -/
def fenceKeywordSearch (text : Str) : Bool :=
  fenceKeywordList.any (fun kw => hasSub (pyUpper text) kw)

/-- The line-scan keyword list of `extract_sql_from_response`
(src/llm/gemini_api.py:146-147). -/
def sqlLineKeywords : List Str :=
  [['S','E','L','E','C','T'], ['F','R','O','M'], ['W','H','E','R','E'],
   ['G','R','O','U','P',' ','B','Y'], ['O','R','D','E','R',' ','B','Y'],
   ['I','N','S','E','R','T',' ','I','N','T','O'], ['U','P','D','A','T','E'],
   ['D','E','L','E','T','E',' ','F','R','O','M'], ['P','R','A','G','M','A']]

/-- `any(line_upper.startswith(keyword) for keyword in sql_keywords)` on the
upper-cased stripped line. -/
def lineStartsWithKeyword (lineUpper : Str) : Bool :=
  sqlLineKeywords.any (fun kw => kw.isPrefixOf lineUpper)

/-- The plain-text line scan of `extract_sql_from_response`
(src/llm/gemini_api.py:149-166): a keyword-starting line (re)starts
collection; a non-blank line continues a started run; a blank line ends the
current run.  Returns the collected lines in order. -/
def collectSqlLines : Bool → List Str → List Str
  | _, [] => []
  | inSql, line :: rest =>
    if lineStartsWithKeyword (pyUpper (pyStrip line)) then
      line :: collectSqlLines true rest
    else if inSql then
      if pyStrip line = [] then collectSqlLines false rest
      else line :: collectSqlLines true rest
    else collectSqlLines false rest

/-- Scan of the odd-indexed pieces of `response.split("```")` (the insides of
generic code fences), returning the first stripped piece that contains a SQL
keyword. -/
def oddFenceScan : List Str → Option Str
  | [] => none
  | p :: rest =>
    if fenceKeywordSearch (pyStrip p) then some (pyStrip p)
    else
      match rest with
      | [] => none
      | _ :: rest2 => oddFenceScan rest2

/-- Model of `GeminiAPI.extract_sql_from_response` (src/llm/gemini_api.py:116-168).
Priority: (1) the first ```sql fence; (2) the first generic fence whose
content matches a SQL keyword; (3) the plain-text line scan; else `""`. -/
def extractSqlFromResponse (response : Str) : Str :=
  if hasSub response ('`' :: '`' :: '`' :: ['s', 'q', 'l']) then
    match pySplitStr response ('`' :: '`' :: '`' :: ['s', 'q', 'l']) with
    | _ :: p1 :: _ =>
      cleanSqlQuery (pyStrip ((pySplitStr p1 ['`', '`', '`']).headD []))
    | _ => extractGenericOrLines response
  else extractGenericOrLines response
where
  /-- Stages (2) and (3): generic fences, then the plain-text line scan. -/
  extractGenericOrLines (response : Str) : Str :=
    match
      (if hasSub response ['`', '`', '`'] then
        match pySplitStr response ['`', '`', '`'] with
        | _ :: rest => oddFenceScan rest
        | [] => none
      else none) with
    | some p => cleanSqlQuery p
    | none =>
      match collectSqlLines false (splitCh '\n' response) with
      | [] => []
      | ls => cleanSqlQuery (pyStrip (joinWith '\n' (ls)))

/-- Case-insensitive literal-prefix test: `w` (given upper-cased) matches the
start of `l` under `re.IGNORECASE`. -/
def ciPrefix (w : Str) (l : Str) : Bool := w.isPrefixOf (pyUpper l)

/-- `re.search(pat, l)`: does the position-matcher `p` fire at some suffix? -/
def reSearch (p : Str → Bool) : Str → Bool
  | [] => p []
  | c :: t => p (c :: t) || reSearch p t

/-- Matcher for `UNION\s+SELECT` (re.IGNORECASE) at the head of the input:
the literal `UNION`, at least one whitespace character, then — after the
maximal whitespace run (`SELECT` starts with a non-space, so `\s+` cannot
stop early) — the literal `SELECT`. -/
def matchUnionSelectAt (l : Str) : Bool :=
  ciPrefix ['U', 'N', 'I', 'O', 'N'] l &&
    (let r := l.drop 5
     r.takeWhile pyIsSpace ≠ [] && ciPrefix ['S', 'E', 'L', 'E', 'C', 'T'] (r.dropWhile pyIsSpace))

/-- Matcher for `;\s*DROP\s+TABLE` (re.IGNORECASE) at the head of the input. -/
def matchSemiDropTableAt : Str → Bool
  | ';' :: r =>
    let r1 := r.dropWhile pyIsSpace
    ciPrefix ['D', 'R', 'O', 'P'] r1 &&
      (let r2 := r1.drop 4
       r2.takeWhile pyIsSpace ≠ [] && ciPrefix ['T', 'A', 'B', 'L', 'E'] (r2.dropWhile pyIsSpace))
  | _ => false

/-- Matcher for `INTO\s+OUTFILE` (re.IGNORECASE) at the head of the input. -/
def matchIntoOutfileAt (l : Str) : Bool :=
  ciPrefix ['I', 'N', 'T', 'O'] l &&
    (let r := l.drop 4
     r.takeWhile pyIsSpace ≠ [] && ciPrefix ['O', 'U', 'T', 'F', 'I', 'L', 'E'] (r.dropWhile pyIsSpace))

/-- Matcher for `INTO\s+DUMPFILE` (re.IGNORECASE) at the head of the input. -/
def matchIntoDumpfileAt (l : Str) : Bool :=
  ciPrefix ['I', 'N', 'T', 'O'] l &&
    (let r := l.drop 4
     r.takeWhile pyIsSpace ≠ [] && ciPrefix ['D', 'U', 'M', 'P', 'F', 'I', 'L', 'E'] (r.dropWhile pyIsSpace))

/-- The rejection message of `QueryProcessor.validate_query`. -/
def harmfulMsg : Str := "Query contains potentially harmful operations".data

/-- Model of `QueryProcessor.validate_query` (src/utils/query_processor.py:50-92).
The four deny-list patterns are checked in order; any match returns
`(False, message)` before the database is touched.  The later
`EXPLAIN QUERY PLAN` / `PRAGMA table_info` probing depends on the live
database and is modelled by the oracle `dbCheck`. -/
def validateQuery (dbCheck : Str → Bool × Option Str) (query : Str) : Bool × Option Str :=
  if reSearch matchSemiDropTableAt query then (false, some harmfulMsg)
  else if reSearch matchUnionSelectAt query then (false, some harmfulMsg)
  else if reSearch matchIntoOutfileAt query then (false, some harmfulMsg)
  else if reSearch matchIntoDumpfileAt query then (false, some harmfulMsg)
  else dbCheck query

/-!
## Database gateway — `src/database/connector.py`
-/

/-- What the SQLite engine does with one statement: either row data together
with a `cursor.rowcount`, or a `sqlite3.Error` with a message.  The engine is
an oracle parameter of the gateway model. -/
inductive EngineOutcome where
  | ok (rows : List Str) (rowcount : Nat)
  | sqlErr (msg : Str)

/-- Exceptions that can arise inside `execute_query`'s `try` block:
`sqlite3.Error` from a raw `cursor.execute`, or `pandas.errors.DatabaseError`
— the wrapper `pandas.io.sql` raises around any DB-API exception inside
`pd.read_sql_query` (it subclasses `OSError`, not `sqlite3.Error`). -/
inductive DbRaise where
  | sqliteError (msg : Str)
  | pandasDatabaseError (msg : Str)
deriving DecidableEq

/-- The exception type that can escape `execute_query` to its caller. -/
inductive PyExc where
  | pandasDatabaseError (msg : Str)
deriving DecidableEq

/-- The result tuple of `execute_query` (execution time omitted — wall-clock
is not modelled).  `executedSql` records the statement text actually handed
to the engine, so that theorems can talk about what reaches the gateway. -/
structure ExecResult where
  rows : List Str
  error : Option Str
  executedSql : Str
deriving DecidableEq

/-- The success message of the non-SELECT write path. -/
def writeSuccessMessage (rowcount : Nat) : Str :=
  "Query executed successfully. ".data ++ (toString rowcount).data ++ " row(s) affected.".data

/-- The `try` block of `DatabaseConnector.execute_query`
(src/database/connector.py:81-110) on the preprocessed statement `q`:
`PRAGMA` statements and non-read statements go through a raw cursor, whose
engine errors surface as `sqlite3.Error`; `SELECT`/`WITH` statements go
through `pd.read_sql_query`, which wraps engine errors in
`pandas.errors.DatabaseError`. -/
def connectorTry (engine : Str → EngineOutcome) (q : Str) : Except DbRaise ExecResult :=
  let qLow := pyStrip (pyLower q)
  if ['p', 'r', 'a', 'g', 'm', 'a'].isPrefixOf qLow then
    match engine q with
    | .ok rows _ => .ok ⟨rows, none, q⟩
    | .sqlErr m => .error (.sqliteError m)
  else if ['s', 'e', 'l', 'e', 'c', 't'].isPrefixOf qLow || ['w', 'i', 't', 'h'].isPrefixOf qLow then
    match engine q with
    | .ok rows _ => .ok ⟨rows, none, q⟩
    | .sqlErr m => .error (.pandasDatabaseError m)
  else
    match engine q with
    | .ok _ n => .ok ⟨[writeSuccessMessage n], none, q⟩
    | .sqlErr m => .error (.sqliteError m)

/-- Model of `DatabaseConnector.execute_query` (src/database/connector.py:49-117):
strip `--` and `/*...*/` comments, strip whitespace, keep only the first
`;`-separated statement (re-terminated with `;`), classify and execute.  The
`except sqlite3.Error` clause turns `sqlite3.Error` into the `error` field of
the result; a `pandas.errors.DatabaseError` is not a `sqlite3.Error` and
escapes to the caller. -/
def connectorExecuteQuery (engine : Str → EngineOutcome) (query : Str) : Except PyExc ExecResult :=
  let q1 := pyStrip (stripBlockComments (stripLineComments query))
  let parts := splitCh ';' q1
  let q2 := if parts.length > 1 then pyStrip (parts.headD []) ++ [';'] else q1
  match connectorTry engine q2 with
  | .ok r => .ok r
  | .error (.sqliteError m) => .ok ⟨[], some m, q2⟩
  | .error (.pandasDatabaseError m) => .error (.pandasDatabaseError m)

/-- Model of `QueryProcessor.execute_query` (src/utils/query_processor.py:94-115):
it calls the gateway directly on the unmodified query — it performs no
validation — and repackages the gateway's results unchanged. -/
def processorExecuteQuery (engine : Str → EngineOutcome) (query : Str) : Except PyExc ExecResult :=
  connectorExecuteQuery engine query

/-!
## Key rotation and response generation — `src/llm/gemini_api.py`
-/

/-- Model of `GeminiAPI._get_next_key` (src/llm/gemini_api.py:28-33): return
the credential at the cursor and advance the cursor by one modulo the pool
size (the mutex serialises this; one call is one atomic step). -/
def getNextKey (keys : List Str) (i : Nat) : Str × Nat :=
  (keys.getD i [], (i + 1) % keys.length)

/-- Outcome of one network attempt of `generate_response`, as classified by
the source: a well-formed response with generated content; a
`requests.exceptions.RequestException` (transport error, timeout, or non-2xx
via `raise_for_status`); a `KeyError`/`json.JSONDecodeError` while reading
the payload; or a parsed response whose `choices` are missing or empty. -/
inductive AttemptResult where
  | content (text : Str)
  | requestError (msg : Str)
  | parseError (msg : Str)
  | noContent

/-- Observable outcome of `generate_response`: the returned value (`None`
models Python `None`), the number of attempts made, the final rotation
cursor, and the accumulated per-attempt error list. -/
structure GenOutcome where
  result : Option Str
  attempts : Nat
  cursor : Nat
  errors : List Str
deriving DecidableEq

/-- The retry loop of `GeminiAPI.generate_response` (src/llm/gemini_api.py:62-114):
`for attempt in range(len(self.api_keys))`; each iteration acquires the next
key (advancing the cursor), issues one attempt, returns immediately on
content, and otherwise records the error and continues; after the loop the
function returns `None`.  `oracle` gives the outcome of each attempt. -/
def genLoop (n : Nat) (oracle : Nat → AttemptResult) :
    Nat → Nat → Nat → List Str → GenOutcome
  | 0, attempt, cursor, errs => ⟨none, attempt, cursor, errs⟩
  | budget + 1, attempt, cursor, errs =>
    let cursor2 := (cursor + 1) % n
    match oracle attempt with
    | .content t => ⟨some t, attempt + 1, cursor2, errs⟩
    | .requestError m => genLoop n oracle budget (attempt + 1) cursor2 (errs ++ [m])
    | .parseError m => genLoop n oracle budget (attempt + 1) cursor2 (errs ++ [m])
    | .noContent =>
      genLoop n oracle budget (attempt + 1) cursor2 (errs ++ ["No content in response".data])

/-- Model of `GeminiAPI.generate_response` run from rotation cursor
`cursor0`: at most `len(api_keys)` attempts. -/
def generateResponse (keys : List Str) (oracle : Nat → AttemptResult) (cursor0 : Nat) :
    GenOutcome :=
  genLoop keys.length oracle keys.length 0 cursor0 []

/-!
## Prompt builder — `src/llm/prompt_builder.py` and `src/config.py`
-/

/-- `config.MAX_HISTORY_LENGTH` (src/config.py:40). -/
def MAX_HISTORY_LENGTH : Nat := 10

/-- One chat message (`{"role": ..., "content": ...}`). -/
structure ChatMessage where
  role : String
  content : String
deriving DecidableEq

/-- The fixed instruction text of `PromptBuilder.build_system_message`
(src/llm/prompt_builder.py:26-45) with the schema text embedded at its
`{self.schema}` interpolation point. -/
def systemPromptText (schema : String) : String :=
  "You are a specialized SQL assistant that helps users interact with a SQLite database. Your task is to convert natural language questions into correct SQL queries.\n\nDATABASE SCHEMA:\n"
    ++ schema
    ++ "\n\nINSTRUCTIONS:\n1. Always respond with a valid SQLite SQL query that answers the user\x27s question\n2. Always place your SQL query inside triple backticks with the sql language tag like this: ```sql\n3. Always add a brief explanation of what the query does and any important SQL concepts used\n4. Be precise and use only tables and columns that exist in the schema\n5. Format SQL using proper indentation and line breaks for readability\n6. You MUST include the SQL query in your response\n\nEXAMPLE RESPONSE FORMAT:\n```sql\nSELECT column_name FROM table_name WHERE condition;\n```\n\nThis query [explanation of what the query does]. It uses [mention any important SQL concepts].\n"

/-- `PromptBuilder.build_system_message`. -/
def buildSystemMessage (schema : String) : ChatMessage :=
  ⟨"system", systemPromptText schema⟩

/-- `PromptBuilder.build_user_message`. -/
def buildUserMessage (query : String) : ChatMessage := ⟨"user", query⟩

/-- `PromptBuilder.build_assistant_message`. -/
def buildAssistantMessage (content : String) : ChatMessage := ⟨"assistant", content⟩

/-- A user/assistant turn pair rendered as the two chat messages the caller
appends to the history (the shape `app.py` builds before calling
`build_messages`). -/
def pairMsgs (pairs : List (String × String)) : List ChatMessage :=
  pairs.flatMap (fun p => [buildUserMessage p.1, buildAssistantMessage p.2])

/-- Model of `PromptBuilder.build_messages` (src/llm/prompt_builder.py:72-95):
the system message, then `conversation_history[-MAX_HISTORY_LENGTH*2:]`
(an empty history contributes nothing, matching the falsy check), then the
new user message. -/
def buildMessages (schema : String) (query : String) (history : List ChatMessage) :
    List ChatMessage :=
  buildSystemMessage schema :: (takeLastN (MAX_HISTORY_LENGTH * 2) history ++ [buildUserMessage query])

/-!
## Lemma library: occurrence counts, comment stripping, splitting
-/

theorem countOcc_nil (pat : Str) : countOcc [] pat = 0 := rfl

theorem countOcc_cons (c : Char) (t : Str) (pat : Str) :
    countOcc (c :: t) pat = (if pat.isPrefixOf (c :: t) then 1 else 0) + countOcc t pat := by
  simp [countOcc]

theorem countOcc_tail_le (c : Char) (t : Str) (pat : Str) :
    countOcc t pat ≤ countOcc (c :: t) pat := by
  rw [countOcc_cons]; omega

theorem countOcc_append_right (a b pat : Str) :
    countOcc b pat ≤ countOcc (a ++ b) pat := by
  induction a with
  | nil => simp
  | cons c a ih => exact ih.trans (countOcc_tail_le c (a ++ b) pat)

theorem countOcc_cons_ite (c : Char) (t : Str) (pat : Str) :
    countOcc (c :: t) pat = (if pat <+: (c :: t) then 1 else 0) + countOcc t pat := by
  rw [countOcc_cons]
  congr 1
  by_cases h : pat <+: c :: t
  · simp [h, List.isPrefixOf_iff_prefix.mpr h]
  · have hb : ¬ pat.isPrefixOf (c :: t) = true := fun hb => h (List.isPrefixOf_iff_prefix.mp hb)
    simp [h, hb]

theorem countOcc_append_left (a y pat : Str) :
    countOcc a pat ≤ countOcc (a ++ y) pat := by
  induction a with
  | nil => simp [countOcc_nil]
  | cons c a ih =>
    rw [List.cons_append, countOcc_cons_ite, countOcc_cons_ite]
    have hle : (if pat <+: (c :: a) then 1 else 0) ≤
        (if pat <+: (c :: (a ++ y)) then 1 else 0) := by
      by_cases h : pat <+: (c :: a)
      · have h2 : pat <+: (c :: (a ++ y)) := by
          have h3 := h.trans (List.prefix_append (c :: a) y)
          rwa [List.cons_append] at h3
        simp [h, h2]
      · simp [h]
    omega

theorem countOcc_mono {a b : Str} (pat : Str) (h : a <:+: b) :
    countOcc a pat ≤ countOcc b pat := by
  obtain ⟨x, y, rfl⟩ := h
  calc countOcc a pat ≤ countOcc (a ++ y) pat := countOcc_append_left a y pat
    _ ≤ countOcc (x ++ (a ++ y)) pat := countOcc_append_right x (a ++ y) pat
    _ = countOcc (x ++ a ++ y) pat := by rw [List.append_assoc]

theorem countOcc_concat_notMem {c : Char} {pat : Str} (hc : c ∉ pat) (hne : pat ≠ [])
    (a : Str) : countOcc (a ++ [c]) pat = countOcc a pat := by
  induction a with
  | nil =>
    simp only [List.nil_append, countOcc_nil]
    rw [countOcc_cons_ite]
    have : ¬ pat <+: [c] := by
      intro h2
      have h2a : pat <+: ([] : Str) ++ [c] := h2
      rcases List.prefix_concat_iff.mp h2a with h3 | h3
      · exact hc (h3 ▸ List.mem_append_right _ (List.mem_singleton_self c))
      · exact hne (List.prefix_nil.mp h3)
    simp [this, countOcc_nil]
  | cons x t ih =>
    rw [List.cons_append, countOcc_cons_ite, countOcc_cons_ite, ih]
    have hiff : (pat <+: x :: (t ++ [c])) ↔ (pat <+: x :: t) := by
      constructor
      · intro h3
        rw [← List.cons_append] at h3
        rcases List.prefix_concat_iff.mp h3 with h4 | h4
        · exact absurd (h4 ▸ List.mem_append_right _ (List.mem_singleton_self c)) hc
        · exact h4
      · intro h
        have h2 := h.trans (List.prefix_append (x :: t) [c])
        rwa [List.cons_append] at h2
    rw [if_congr hiff rfl rfl]

theorem pyCountAux_le_countOcc (p : Char) (ps : Str) :
    ∀ fuel l, pyCountAux (p :: ps) fuel l ≤ countOcc l (p :: ps) := by
  intro fuel
  induction fuel with
  | zero => intro l; simp [pyCountAux]
  | succ n ih =>
    intro l
    match l with
    | [] => simp [pyCountAux]
    | c :: t =>
      rw [show pyCountAux (p :: ps) (n + 1) (c :: t) =
          (if (p :: ps).isPrefixOf (c :: t) then
            1 + pyCountAux (p :: ps) n ((c :: t).drop (p :: ps).length)
          else pyCountAux (p :: ps) n t) from rfl]
      have hdrop : (c :: t).drop (p :: ps).length = t.drop ps.length := by simp
      by_cases h : (p :: ps).isPrefixOf (c :: t)
      · simp only [h, if_true, hdrop]
        have h1 : pyCountAux (p :: ps) n (t.drop ps.length) ≤
            countOcc (t.drop ps.length) (p :: ps) := ih _
        have h2 : countOcc (t.drop ps.length) (p :: ps) ≤ countOcc t (p :: ps) :=
          countOcc_mono _ (List.drop_suffix _ _).isInfix
        rw [countOcc_cons]
        simp only [h, if_true]
        omega
      · simp only [h, if_false]
        exact (ih t).trans (countOcc_tail_le c t _)

theorem pyCount_le_countOcc (l : Str) (p : Char) (ps : Str) :
    pyCount l (p :: ps) ≤ countOcc l (p :: ps) :=
  pyCountAux_le_countOcc p ps (l.length + 1) l

theorem splitCh_ne_nil (c : Char) (l : Str) : splitCh c l ≠ [] := by
  cases l with
  | nil => simp [splitCh]
  | cons x r =>
    rw [show splitCh c (x :: r) =
        (if x = c then [] :: splitCh c r
         else match splitCh c r with
           | [] => [[x]]
           | h :: t => (x :: h) :: t) from rfl]
    by_cases h : x = c
    · simp [h]
    · simp only [h, if_false]
      cases splitCh c r <;> simp

theorem splitCh_cons_ne {x c : Char} (r : Str) (h : ¬ x = c) :
    splitCh c (x :: r) =
      (x :: (splitCh c r).headD []) :: (splitCh c r).tail := by
  rw [show splitCh c (x :: r) =
      (if x = c then [] :: splitCh c r
       else match splitCh c r with
         | [] => [[x]]
         | h :: t => (x :: h) :: t) from rfl]
  simp only [h, if_false]
  rcases h2 : splitCh c r with _ | ⟨hd, tl⟩
  · exact absurd h2 (splitCh_ne_nil c r)
  · simp

theorem splitCh_cons_eq (c : Char) (r : Str) :
    splitCh c (c :: r) = [] :: splitCh c r := by
  rw [show splitCh c (c :: r) =
      (if c = c then [] :: splitCh c r
       else match splitCh c r with
         | [] => [[c]]
         | h :: t => (c :: h) :: t) from rfl]
  simp

theorem joinWith_splitCh (c : Char) (l : Str) : joinWith c (splitCh c l) = l := by
  induction l with
  | nil => simp [splitCh, joinWith]
  | cons x r ih =>
    by_cases h : x = c
    · subst h
      rw [splitCh_cons_eq]
      rcases h2 : splitCh x r with _ | ⟨hd, tl⟩
      · exact absurd h2 (splitCh_ne_nil x r)
      · rw [h2] at ih
        simp only [joinWith, List.nil_append]
        exact congrArg (x :: ·) ih
    · rw [splitCh_cons_ne r h]
      rcases h2 : splitCh c r with _ | ⟨hd, tl⟩
      · exact absurd h2 (splitCh_ne_nil c r)
      · rw [h2] at ih
        simp only [List.headD_cons, List.tail_cons]
        cases tl with
        | nil => simpa [joinWith] using congrArg (x :: ·) ih
        | cons y ts => simpa [joinWith] using congrArg (x :: ·) ih

theorem splitCh_headD (c : Char) (l : Str) :
    (splitCh c l).headD [] = l.takeWhile (· ≠ c) := by
  induction l with
  | nil => simp [splitCh]
  | cons x r ih =>
    by_cases h : x = c
    · subst h
      rw [splitCh_cons_eq]
      simp [List.takeWhile_cons]
    · rw [splitCh_cons_ne r h, List.headD_cons, List.takeWhile_cons,
        if_pos (by simp [h]), ih]

theorem mem_splitCh_sub {x : Str} {c : Char} {l : Str} (h : x ∈ splitCh c l) :
    x <:+: l := by
  induction l with
  | nil =>
    simp [splitCh] at h
    simp [h]
  | cons a r ih =>
    by_cases ha : a = c
    · subst ha
      rw [splitCh_cons_eq] at h
      rcases List.mem_cons.mp h with h1 | h1
      · simp [h1]
      · exact List.infix_cons (ih h1)
    · rw [splitCh_cons_ne r ha] at h
      rcases List.mem_cons.mp h with h1 | h1
      · subst h1
        have hpfx : (splitCh c r).headD [] <+: r := by
          rw [splitCh_headD]
          exact List.takeWhile_prefix _
        exact ((List.prefix_cons_inj a).mpr hpfx).isInfix
      · exact List.infix_cons (ih (List.mem_of_mem_tail h1))

theorem truncAt_eq_self {pat l : Str} (h : countOcc l pat = 0) : truncAt pat l = l := by
  induction l with
  | nil => simp [truncAt]
  | cons c t ih =>
    rw [countOcc_cons] at h
    have h1 : ¬ pat.isPrefixOf (c :: t) := by
      intro hb
      simp [hb] at h
    have h2 : countOcc t pat = 0 := by omega
    simp [truncAt, h1, ih h2]

theorem stripLineComments_eq_self {l : Str} (h : countOcc l ['-', '-'] = 0) :
    stripLineComments l = l := by
  unfold stripLineComments
  have hmap : (splitCh '\n' l).map (truncAt ['-', '-']) = (splitCh '\n' l).map id := by
    apply List.map_congr_left
    intro part hpart
    have hinf : part <:+: l := mem_splitCh_sub hpart
    have : countOcc part ['-', '-'] = 0 :=
      Nat.le_zero.mp (h ▸ countOcc_mono _ hinf)
    simp [truncAt_eq_self this]
  rw [hmap, List.map_id, joinWith_splitCh]

theorem findOpen_eq_none {l : Str} (h : countOcc l ['/', '*'] = 0) :
    findOpen l = none := by
  induction l with
  | nil => rfl
  | cons c t ih =>
    cases t with
    | nil => rfl
    | cons c2 r =>
      rw [show findOpen (c :: c2 :: r) =
          (if c = '/' ∧ c2 = '*' then some (([] : Str), r)
           else (findOpen (c2 :: r)).map (fun p => (c :: p.1, p.2))) from rfl]
      have hnp : ¬ (c = '/' ∧ c2 = '*') := by
        rintro ⟨rfl, rfl⟩
        rw [countOcc_cons] at h
        have : (['/', '*'] : Str).isPrefixOf ('/' :: '*' :: r) := by
          apply List.isPrefixOf_iff_prefix.mpr
          exact ⟨r, rfl⟩
        simp [this] at h
      have h2 : countOcc (c2 :: r) ['/', '*'] = 0 :=
        Nat.le_zero.mp (h ▸ countOcc_tail_le c (c2 :: r) _)
      simp [hnp, ih h2]

theorem stripBCAux_eq_self {l : Str} (h : countOcc l ['/', '*'] = 0) (fuel : Nat) :
    stripBCAux fuel l = l := by
  cases fuel with
  | zero => rfl
  | succ n =>
    rw [show stripBCAux (n + 1) l =
        (match findOpen l with
         | none => l
         | some (pre, rest) =>
           match scanClose rest with
           | none => l
           | some rest2 => pre ++ stripBCAux n rest2) from rfl]
    rw [findOpen_eq_none h]

theorem stripBlockComments_eq_self {l : Str} (h : countOcc l ['/', '*'] = 0) :
    stripBlockComments l = l := stripBCAux_eq_self h _

theorem stripLeft_suffix (l : Str) : stripLeft l <:+ l := List.dropWhile_suffix _

theorem stripRight_front (l : Str) : stripRight l <+: l := by
  unfold stripRight
  have h : l.reverse.dropWhile pyIsSpace <:+ l.reverse := List.dropWhile_suffix _
  have h2 := List.reverse_prefix.mpr h
  rwa [List.reverse_reverse] at h2

theorem pyStrip_sub (l : Str) : pyStrip l <:+: l := by
  unfold pyStrip
  exact (stripRight_front (stripLeft l)).isInfix.trans (stripLeft_suffix l).isInfix

theorem stripRight_idem (l : Str) : stripRight (stripRight l) = stripRight l := by
  unfold stripRight
  rw [List.reverse_reverse, List.dropWhile_idempotent]

theorem stripLeft_head_not {l : Str} (h : stripLeft l ≠ []) :
    pyIsSpace ((stripLeft l).headD ' ') = false := by
  unfold stripLeft at *
  have hd := List.head_dropWhile_not pyIsSpace l h
  rw [List.headD_eq_head?, List.head?_eq_head h, Option.getD_some]
  exact hd

theorem stripLeft_eq_self_of_head {l : Str} (h : pyIsSpace (l.headD ' ') = false) :
    stripLeft l = l := by
  cases l with
  | nil => rfl
  | cons c t =>
    unfold stripLeft
    rw [List.dropWhile_cons]
    simp only [List.headD_cons] at h
    simp [h]

theorem pyStrip_idem (l : Str) : pyStrip (pyStrip l) = pyStrip l := by
  unfold pyStrip
  have hmid : stripLeft (stripRight (stripLeft l)) = stripRight (stripLeft l) := by
    rcases h : stripRight (stripLeft l) with _ | ⟨c, t⟩
    · rfl
    · apply stripLeft_eq_self_of_head
      have hpfx : stripRight (stripLeft l) <+: stripLeft l := stripRight_front _
      rw [h] at hpfx
      obtain ⟨u, hu⟩ := hpfx
      have hne : stripLeft l ≠ [] := by
        rw [← hu]
        simp
      have hhead := stripLeft_head_not hne
      rw [← hu] at hhead
      simpa using hhead
  rw [hmid, stripRight_idem]

/-- On comment-marker-free input with at most one (case-insensitive)
occurrence of `PRAGMA`, `cleanSqlQuery` reduces to its first-statement
truncation logic. -/
theorem cleanSqlQuery_of_clean {q : Str}
    (hdd : countOcc q ['-', '-'] = 0) (hbc : countOcc q ['/', '*'] = 0)
    (hp : countOcc (pyUpper q) ['P', 'R', 'A', 'G', 'M', 'A'] ≤ 1) :
    cleanSqlQuery q =
      (if ';' ∈ q then
        if pyStrip (q.takeWhile (· ≠ ';')) ≠ [] then
          pyStrip (q.takeWhile (· ≠ ';')) ++ [';']
        else q
      else q) := by
  have hid : stripBlockComments (stripLineComments q) = q := by
    rw [stripLineComments_eq_self hdd, stripBlockComments_eq_self hbc]
  have hcount : ¬ (pyCount (pyUpper q) ['P', 'R', 'A', 'G', 'M', 'A'] > 1) := by
    have := pyCount_le_countOcc (pyUpper q) 'P' ['R', 'A', 'G', 'M', 'A']
    omega
  simp only [cleanSqlQuery, hid, hcount, if_false, splitCh_headD]

/-- All characters of `pyStrip (l.takeWhile (· ≠ c))` differ from `c`. -/
theorem pyStrip_takeWhile_ne {c : Char} {x : Char} {l : Str}
    (hx : x ∈ pyStrip (l.takeWhile (· ≠ c))) : x ≠ c := by
  have hsub : x ∈ l.takeWhile (· ≠ c) :=
    (pyStrip_sub _).subset hx
  simpa using List.mem_takeWhile_imp hsub

/-- `pyStrip (l.takeWhile (· ≠ c))` is an infix of `l`. -/
theorem pyStrip_takeWhile_sub (c : Char) (l : Str) :
    pyStrip (l.takeWhile (· ≠ c)) <:+: l :=
  (pyStrip_sub _).trans (List.takeWhile_prefix _).isInfix

/-- Idempotence of `cleanSqlQuery` on inputs without comment markers and with
at most one case-insensitive occurrence of `PRAGMA`. -/
theorem cleanSqlQuery_idem_of_clean {s : Str}
    (hdd : countOcc s ['-', '-'] = 0) (hbc : countOcc s ['/', '*'] = 0)
    (hp : countOcc (pyUpper s) ['P', 'R', 'A', 'G', 'M', 'A'] ≤ 1) :
    cleanSqlQuery (cleanSqlQuery s) = cleanSqlQuery s := by
  rw [cleanSqlQuery_of_clean hdd hbc hp]
  by_cases hsemi : ';' ∈ s
  · rw [if_pos hsemi]
    by_cases hT : pyStrip (s.takeWhile (· ≠ ';')) = []
    · rw [if_neg (not_not_intro hT), cleanSqlQuery_of_clean hdd hbc hp,
        if_pos hsemi, if_neg (not_not_intro hT)]
    · rw [if_pos hT]
      have hTinf : pyStrip (s.takeWhile (· ≠ ';')) <:+: s := pyStrip_takeWhile_sub ';' s
      have hr_dd : countOcc (pyStrip (s.takeWhile (· ≠ ';')) ++ [';']) ['-', '-'] = 0 := by
        rw [countOcc_concat_notMem (by decide) (by decide)]
        exact Nat.le_zero.mp (hdd ▸ countOcc_mono _ hTinf)
      have hr_bc : countOcc (pyStrip (s.takeWhile (· ≠ ';')) ++ [';']) ['/', '*'] = 0 := by
        rw [countOcc_concat_notMem (by decide) (by decide)]
        exact Nat.le_zero.mp (hbc ▸ countOcc_mono _ hTinf)
      have hr_p : countOcc (pyUpper (pyStrip (s.takeWhile (· ≠ ';')) ++ [';']))
          ['P', 'R', 'A', 'G', 'M', 'A'] ≤ 1 := by
        have hu : pyUpper (pyStrip (s.takeWhile (· ≠ ';')) ++ [';'])
            = pyUpper (pyStrip (s.takeWhile (· ≠ ';'))) ++ [';'] := by
          simp [pyUpper]
        rw [hu, countOcc_concat_notMem (by decide) (by decide)]
        exact le_trans (countOcc_mono _ (List.IsInfix.map Char.toUpper hTinf)) hp
      rw [cleanSqlQuery_of_clean hr_dd hr_bc hr_p]
      have hmem : ';' ∈ pyStrip (s.takeWhile (· ≠ ';')) ++ [';'] :=
        List.mem_append_right _ (List.mem_singleton_self ';')
      have htake : (pyStrip (s.takeWhile (· ≠ ';')) ++ [';']).takeWhile (· ≠ ';')
          = pyStrip (s.takeWhile (· ≠ ';')) := by
        rw [List.takeWhile_append_of_pos (fun x hx => by
          simpa using pyStrip_takeWhile_ne hx)]
        rw [List.takeWhile_cons]
        simp
      rw [if_pos hmem, htake, pyStrip_idem]
      rw [if_pos hT]
  · rw [if_neg hsemi, cleanSqlQuery_of_clean hdd hbc hp, if_neg hsemi]

/-!
## Lemma library: key-rotation loop
-/

theorem genLoop_all_fail {n : Nat} {oracle : Nat → AttemptResult} (hn : 0 < n)
    (hfail : ∀ a t, oracle a ≠ AttemptResult.content t) :
    ∀ budget attempt cursor errs, cursor < n →
      (genLoop n oracle budget attempt cursor errs).result = none ∧
      (genLoop n oracle budget attempt cursor errs).attempts = attempt + budget ∧
      (genLoop n oracle budget attempt cursor errs).errors.length = errs.length + budget ∧
      (genLoop n oracle budget attempt cursor errs).cursor = (cursor + budget) % n := by
  intro budget
  induction budget with
  | zero =>
    intro attempt cursor errs hc
    simp [genLoop, Nat.mod_eq_of_lt hc]
  | succ b ih =>
    intro attempt cursor errs hc
    have hc2 : (cursor + 1) % n < n := Nat.mod_lt _ hn
    rcases ho : oracle attempt with t | m | m | _
    · exact absurd ho (hfail attempt t)
    all_goals
      simp only [genLoop, ho]
      obtain ⟨h1, h2, h3, h4⟩ := ih (attempt + 1) ((cursor + 1) % n) _ hc2
      refine ⟨h1, by omega, ?_, ?_⟩
      · simp only [List.length_append, List.length_singleton] at h3
        omega
      · rw [h4, Nat.mod_add_mod]
        congr 1
        omega

theorem genLoop_first_success {n : Nat} {oracle : Nat → AttemptResult} (hn : 0 < n)
    (t : Str) :
    ∀ k budget attempt cursor errs, cursor < n → k < budget →
      (∀ j, j < k → ∀ u, oracle (attempt + j) ≠ AttemptResult.content u) →
      oracle (attempt + k) = AttemptResult.content t →
      (genLoop n oracle budget attempt cursor errs).result = some t ∧
      (genLoop n oracle budget attempt cursor errs).attempts = attempt + k + 1 ∧
      (genLoop n oracle budget attempt cursor errs).cursor = (cursor + k + 1) % n := by
  intro k
  induction k with
  | zero =>
    intro budget attempt cursor errs _ hb _ hsucc
    obtain ⟨b, rfl⟩ : ∃ b, budget = b + 1 := ⟨budget - 1, by omega⟩
    rw [Nat.add_zero] at hsucc
    simp [genLoop, hsucc]
  | succ k ih =>
    intro budget attempt cursor errs hc hb hfail hsucc
    obtain ⟨b, rfl⟩ : ∃ b, budget = b + 1 := ⟨budget - 1, by omega⟩
    have hc2 : (cursor + 1) % n < n := Nat.mod_lt _ hn
    have hfail2 : ∀ j, j < k → ∀ u, oracle (attempt + 1 + j) ≠ AttemptResult.content u := by
      intro j hj u
      have := hfail (j + 1) (by omega) u
      rwa [show attempt + (j + 1) = attempt + 1 + j by omega] at this
    have hsucc2 : oracle (attempt + 1 + k) = AttemptResult.content t := by
      rwa [show attempt + (k + 1) = attempt + 1 + k by omega] at hsucc
    rcases ho : oracle attempt with u | m | m | _
    · exact absurd (by simpa using ho) (hfail 0 (by omega) u)
    all_goals
      simp only [genLoop, ho]
      obtain ⟨h1, h2, h3⟩ := ih b (attempt + 1) ((cursor + 1) % n) _ hc2 (by omega) hfail2 hsucc2
      refine ⟨h1, by omega, ?_⟩
      rw [h3, Nat.add_assoc, Nat.mod_add_mod]
      congr 1
      omega

/-!
## Lemma library: deny-list search, plain-text extraction, prompt building
-/

theorem reSearch_append {p : Str → Bool} (a : Str) {m : Str} (h : p m = true) :
    reSearch p (a ++ m) = true := by
  induction a with
  | nil =>
    cases m with
    | nil => simpa [reSearch] using h
    | cons c t => simp [reSearch, h]
  | cons c a ih =>
    rw [List.cons_append,
      show reSearch p (c :: (a ++ m)) = (p (c :: (a ++ m)) || reSearch p (a ++ m)) from rfl,
      ih]
    simp

theorem dropWhile_append_of_all {p : Char → Bool} {w : Str} (hw : ∀ x ∈ w, p x = true)
    (z : Str) : (w ++ z).dropWhile p = z.dropWhile p := by
  induction w with
  | nil => rfl
  | cons c t ih =>
    rw [List.cons_append, List.dropWhile_cons, if_pos (hw c (List.mem_cons_self c t))]
    exact ih (fun x hx => hw x (List.mem_cons_of_mem c hx))

theorem pyIsSpace_of_toUpper {c : Char} (h : pyIsSpace (Char.toUpper c) = false) :
    pyIsSpace c = false := by
  by_contra hs
  rw [Bool.not_eq_false] at hs
  have hcc : Char.toUpper c = c := by
    have hs2 := hs
    simp only [pyIsSpace, Bool.or_eq_true, decide_eq_true_eq] at hs2
    rcases hs2 with ((((rfl | rfl) | rfl) | rfl) | rfl) | rfl <;> decide
  rw [hcc] at h
  rw [h] at hs
  exact Bool.false_ne_true hs

theorem matchUnionSelectAt_of_parts {u w t b : Str}
    (hu : pyUpper u = ['U', 'N', 'I', 'O', 'N'])
    (hwne : w ≠ []) (hw : ∀ x ∈ w, pyIsSpace x = true)
    (ht : pyUpper t = ['S', 'E', 'L', 'E', 'C', 'T']) :
    matchUnionSelectAt (u ++ w ++ t ++ b) = true := by
  have hulen : u.length = 5 := by
    have := congrArg List.length hu
    simpa [pyUpper] using this
  have hci : ciPrefix ['U', 'N', 'I', 'O', 'N'] (u ++ w ++ t ++ b) = true := by
    unfold ciPrefix
    apply List.isPrefixOf_iff_prefix.mpr
    rw [List.append_assoc, List.append_assoc, pyUpper, List.map_append, ← pyUpper, ← pyUpper, hu]
    exact List.prefix_append _ _
  have hdrop : (u ++ w ++ t ++ b).drop 5 = w ++ t ++ b := by
    rw [List.append_assoc, List.append_assoc, ← hulen, List.drop_left, ← List.append_assoc]
  have htne : t ≠ [] := by
    intro h
    rw [h] at ht
    exact absurd ht (by simp [pyUpper])
  obtain ⟨t0, ts, rfl⟩ : ∃ t0 ts, t = t0 :: ts := by
    cases t with
    | nil => exact absurd rfl htne
    | cons t0 ts => exact ⟨t0, ts, rfl⟩
  have ht0 : Char.toUpper t0 = 'S' := by
    simpa [pyUpper] using congrArg (List.headD · ' ') ht
  have ht0ns : pyIsSpace t0 = false := pyIsSpace_of_toUpper (by rw [ht0]; decide)
  have hdw : (w ++ (t0 :: ts) ++ b).dropWhile pyIsSpace = t0 :: (ts ++ b) := by
    rw [List.append_assoc, dropWhile_append_of_all hw, List.cons_append,
      List.dropWhile_cons, if_neg (by simp [ht0ns])]
  obtain ⟨w0, ws, rfl⟩ : ∃ w0 ws, w = w0 :: ws := by
    cases w with
    | nil => exact absurd rfl hwne
    | cons w0 ws => exact ⟨w0, ws, rfl⟩
  have htw : ((w0 :: ws) ++ (t0 :: ts) ++ b).takeWhile pyIsSpace ≠ [] := by
    rw [List.append_assoc, List.cons_append, List.takeWhile_cons,
      if_pos (hw w0 (List.mem_cons_self w0 ws))]
    simp
  have hsel : ciPrefix ['S', 'E', 'L', 'E', 'C', 'T'] (t0 :: (ts ++ b)) = true := by
    unfold ciPrefix
    apply List.isPrefixOf_iff_prefix.mpr
    have hspl : pyUpper (t0 :: (ts ++ b)) = pyUpper (t0 :: ts) ++ pyUpper b := by
      simp [pyUpper]
    rw [hspl, ht]
    exact List.prefix_append _ _
  unfold matchUnionSelectAt
  rw [hci, hdrop]
  simp only [Bool.true_and, hdw, hsel, Bool.and_true, decide_eq_true_eq]
  exact htw

theorem countOcc_eq_zero_of_notMem {c : Char} {pat l : Str} (hc : c ∈ pat)
    (hl : c ∉ l) : countOcc l pat = 0 := by
  induction l with
  | nil => rfl
  | cons x t ih =>
    rw [countOcc_cons_ite]
    have h1 : ¬ pat <+: (x :: t) := by
      intro h
      exact hl (h.subset hc)
    have h2 : c ∉ t := fun h => hl (List.mem_cons_of_mem x h)
    simp [h1, ih h2]

theorem splitCh_of_notMem {c : Char} {l : Str} (h : c ∉ l) : splitCh c l = [l] := by
  induction l with
  | nil => rfl
  | cons x r ih =>
    have hx : ¬ x = c := fun hxc => h (hxc ▸ List.mem_cons_self x r)
    have hr : c ∉ r := fun hm => h (List.mem_cons_of_mem x hm)
    rw [splitCh_cons_ne r hx, ih hr]
    simp

theorem splitCh_append_sep {c : Char} {u : Str} (h : c ∉ u) (w : Str) :
    splitCh c (u ++ c :: w) = u :: splitCh c w := by
  induction u with
  | nil => simpa using splitCh_cons_eq c w
  | cons x t ih =>
    have hx : ¬ x = c := fun hxc => h (hxc ▸ List.mem_cons_self x t)
    have ht : c ∉ t := fun hm => h (List.mem_cons_of_mem x hm)
    rw [List.cons_append, splitCh_cons_ne (t ++ c :: w) hx, ih ht]
    simp

/-- The plain-text line scan of `extract_sql_from_response` on a
keyword-starting line, a blank line, then another keyword-starting line:
both keyword lines are collected — a blank line ends a run, but a later
keyword line starts a new run that is also kept. -/
theorem collectSqlLines_restart {u v : Str}
    (hu : lineStartsWithKeyword (pyUpper (pyStrip u)) = true)
    (hv : lineStartsWithKeyword (pyUpper (pyStrip v)) = true) :
    collectSqlLines false [u, [], v] = [u, v] := by
  simp only [collectSqlLines, hu, if_true, hv]
  rw [if_neg (by decide), if_pos (by decide)]

theorem extractSql_fallback_two_runs {u v : Str}
    (hnu : '\n' ∉ u) (hnv : '\n' ∉ v) (hbu : '`' ∉ u) (hbv : '`' ∉ v)
    (hu : lineStartsWithKeyword (pyUpper (pyStrip u)) = true)
    (hv : lineStartsWithKeyword (pyUpper (pyStrip v)) = true) :
    extractSqlFromResponse (u ++ '\n' :: '\n' :: v) =
      cleanSqlQuery (pyStrip (u ++ '\n' :: v)) := by
  have hbr : '`' ∉ (u ++ '\n' :: '\n' :: v) := by
    simp only [List.mem_append, List.mem_cons]
    push_neg
    exact ⟨hbu, by decide, by decide, hbv⟩
  have h1 : hasSub (u ++ '\n' :: '\n' :: v) ('`' :: '`' :: '`' :: ['s', 'q', 'l']) = false := by
    have hz : countOcc (u ++ '\n' :: '\n' :: v) ('`' :: '`' :: '`' :: ['s', 'q', 'l']) = 0 :=
      countOcc_eq_zero_of_notMem (by decide) hbr
    simp [hasSub, hz]
  have h2 : hasSub (u ++ '\n' :: '\n' :: v) ['`', '`', '`'] = false := by
    have hz : countOcc (u ++ '\n' :: '\n' :: v) ['`', '`', '`'] = 0 :=
      countOcc_eq_zero_of_notMem (by decide) hbr
    simp [hasSub, hz]
  have hsplit : splitCh '\n' (u ++ '\n' :: '\n' :: v) = [u, [], v] := by
    rw [splitCh_append_sep hnu, splitCh_cons_eq, splitCh_of_notMem hnv]
  unfold extractSqlFromResponse
  rw [h1]
  simp only [Bool.false_eq_true, if_false]
  unfold extractSqlFromResponse.extractGenericOrLines
  rw [h2]
  simp only [Bool.false_eq_true, if_false, hsplit, collectSqlLines_restart hu hv]
  simp [joinWith]

theorem pairMsgs_length (pairs : List (String × String)) :
    (pairMsgs pairs).length = 2 * pairs.length := by
  induction pairs with
  | nil => rfl
  | cons p t ih =>
    simp only [pairMsgs, List.flatMap_cons] at ih ⊢
    simp [ih]
    omega

theorem pairMsgs_drop (pairs : List (String × String)) (m : Nat) :
    pairMsgs (pairs.drop m) = (pairMsgs pairs).drop (2 * m) := by
  induction pairs generalizing m with
  | nil => simp [pairMsgs]
  | cons p t ih =>
    cases m with
    | zero => simp
    | succ m2 =>
      simp only [List.drop_succ_cons, pairMsgs, List.flatMap_cons]
      rw [show 2 * (m2 + 1) = (2 * m2) + 1 + 1 by omega]
      simp only [List.drop_succ_cons, List.cons_append, List.nil_append]
      exact ih m2

theorem takeLastN_pairMsgs (k : Nat) (pairs : List (String × String)) :
    takeLastN (2 * k) (pairMsgs pairs) = pairMsgs (takeLastN k pairs) := by
  unfold takeLastN
  rw [pairMsgs_drop, pairMsgs_length]
  congr 1
  omega

theorem takeLastN_length_le (n : Nat) (l : List α) : (takeLastN n l).length ≤ n := by
  unfold takeLastN
  rw [List.length_drop]
  omega

/-!
## Claims
-/

/-- C1: the claim states that `execute_query` catches any underlying engine
error on any statement class and returns it in the result's error field,
never raising.  This holds for the `PRAGMA` and write paths (raw
`cursor.execute`, whose `sqlite3.Error` the `except` clause catches), but on
the `SELECT`/`WITH` path the engine error is wrapped by `pd.read_sql_query`
into `pandas.errors.DatabaseError`, which is not a `sqlite3.Error` and
escapes to the caller: a failing SELECT makes `execute_query` raise. -/
theorem executeQuery_select_error_escapes :
    connectorExecuteQuery (fun _ => EngineOutcome.sqlErr "no such table: missing_table".data)
        "SELECT * FROM missing_table".data
      = Except.error (PyExc.pandasDatabaseError "no such table: missing_table".data) ∧
    connectorExecuteQuery (fun _ => EngineOutcome.sqlErr "no such table: missing_table".data)
        "DELETE FROM missing_table".data
      = Except.ok ⟨[], some "no such table: missing_table".data,
          "DELETE FROM missing_table".data⟩ ∧
    connectorExecuteQuery (fun _ => EngineOutcome.sqlErr "no such table: missing_table".data)
        "PRAGMA table_info(missing)".data
      = Except.ok ⟨[], some "no such table: missing_table".data,
          "PRAGMA table_info(missing)".data⟩ :=
  ⟨rfl, rfl, rfl⟩

/-- C2: for a credential pool of size `N ≥ 1` whose attempts all fail
(transport error / non-2xx, malformed payload, or a response without
generated content), `generate_response` makes exactly `N` attempts, records
one error per attempt, returns `None` as a value (each listed failure class
is caught by the source's `except` clauses), and leaves the rotation cursor
advanced by `N` modulo `N`. -/
theorem generateResponse_exhaustion (keys : List Str) (oracle : Nat → AttemptResult)
    (c0 : Nat) (hk : 0 < keys.length) (hc : c0 < keys.length)
    (hfail : ∀ a t, oracle a ≠ AttemptResult.content t) :
    (generateResponse keys oracle c0).result = none ∧
    (generateResponse keys oracle c0).attempts = keys.length ∧
    (generateResponse keys oracle c0).errors.length = keys.length ∧
    (generateResponse keys oracle c0).cursor = (c0 + keys.length) % keys.length := by
  have h := genLoop_all_fail hk hfail keys.length 0 c0 [] hc
  unfold generateResponse
  simpa using h

/-- Witness for C2 at a concrete two-credential pool where every attempt is a
transport error. -/
theorem generateResponse_exhaustion_witness :
    (generateResponse ["k1".data, "k2".data]
        (fun _ => AttemptResult.requestError "boom".data) 0).result = none ∧
    (generateResponse ["k1".data, "k2".data]
        (fun _ => AttemptResult.requestError "boom".data) 0).attempts
      = (["k1".data, "k2".data] : List Str).length ∧
    (generateResponse ["k1".data, "k2".data]
        (fun _ => AttemptResult.requestError "boom".data) 0).errors.length
      = (["k1".data, "k2".data] : List Str).length ∧
    (generateResponse ["k1".data, "k2".data]
        (fun _ => AttemptResult.requestError "boom".data) 0).cursor
      = (0 + (["k1".data, "k2".data] : List Str).length)
          % (["k1".data, "k2".data] : List Str).length :=
  generateResponse_exhaustion _ _ _ (by decide) (by decide)
    (fun _ t h => AttemptResult.noConfusion h)

/-- C3: `generate_response` returns on the first attempt that yields
generated content: if attempts `0..k-1` fail and attempt `k` succeeds with
text `t` (`k` within the pool), exactly `k + 1` attempts are made, the text
of attempt `k` is returned, and the rotation cursor advances by `k + 1`
modulo the pool size — in the claim's 4-credential scenario (`k = 3`),
4 attempts, cursor advanced by 4 (back to its start, mod 4), and the 4th
attempt's content returned. -/
theorem generateResponse_first_success (keys : List Str) (oracle : Nat → AttemptResult)
    (c0 k : Nat) (t : Str) (hc : c0 < keys.length) (hk : k < keys.length)
    (hfail : ∀ j, j < k → ∀ u, oracle j ≠ AttemptResult.content u)
    (hsucc : oracle k = AttemptResult.content t) :
    (generateResponse keys oracle c0).result = some t ∧
    (generateResponse keys oracle c0).attempts = k + 1 ∧
    (generateResponse keys oracle c0).cursor = (c0 + k + 1) % keys.length := by
  have hn : 0 < keys.length := by omega
  have hfail0 : ∀ j, j < k → ∀ u, oracle (0 + j) ≠ AttemptResult.content u := by
    intro j hj u
    simpa using hfail j hj u
  have hsucc0 : oracle (0 + k) = AttemptResult.content t := by simpa using hsucc
  have h := genLoop_first_success hn t k keys.length 0 c0 [] hc hk hfail0 hsucc0
  unfold generateResponse
  simpa using h

/-- Witness for C3: four credentials, attempts 1-3 fail, attempt 4 succeeds;
4 attempts are made and the cursor returns to its starting position mod 4. -/
theorem generateResponse_first_success_witness :
    (generateResponse ["a".data, "b".data, "c".data, "d".data]
        (fun a => if a = 3 then AttemptResult.content "SELECT COUNT( * ) FROM film;".data
          else AttemptResult.requestError "transport".data) 0).result
      = some "SELECT COUNT( * ) FROM film;".data ∧
    (generateResponse ["a".data, "b".data, "c".data, "d".data]
        (fun a => if a = 3 then AttemptResult.content "SELECT COUNT( * ) FROM film;".data
          else AttemptResult.requestError "transport".data) 0).attempts
      = 3 + 1 ∧
    (generateResponse ["a".data, "b".data, "c".data, "d".data]
        (fun a => if a = 3 then AttemptResult.content "SELECT COUNT( * ) FROM film;".data
          else AttemptResult.requestError "transport".data) 0).cursor
      = (0 + 3 + 1) % (["a".data, "b".data, "c".data, "d".data] : List Str).length :=
  generateResponse_first_success _ _ 0 3 _ (by decide) (by decide)
    (fun j hj u h => by
      have hj3 : j ≠ 3 := by omega
      rw [if_neg hj3] at h
      exact AttemptResult.noConfusion h)
    rfl

/-- C10: the rotation-cursor invariant of `_get_next_key`: for a pool of
size `n ≥ 1` and a cursor `i < n`, the call returns the credential at
position `i`, sets the cursor to `(i + 1) % n` (which is again `< n`), and
`k` successive cursor steps starting from any `c < n` end at `(c + k) % n`. -/
theorem getNextKey_invariant (keys : List Str) (i : Nat)
    (h0 : 0 < keys.length) (hi : i < keys.length) :
    (getNextKey keys i).1 = keys.get ⟨i, hi⟩ ∧
    (getNextKey keys i).2 = (i + 1) % keys.length ∧
    (getNextKey keys i).2 < keys.length ∧
    (∀ c k, c < keys.length →
      (fun j => (getNextKey keys j).2)^[k] c = (c + k) % keys.length) := by
  refine ⟨?_, rfl, Nat.mod_lt _ h0, ?_⟩
  · unfold getNextKey
    simp [List.getD_eq_getElem?_getD, List.getElem?_eq_getElem hi, List.get_eq_getElem]
  · intro c k hck
    induction k generalizing c with
    | zero => simp [Nat.mod_eq_of_lt hck]
    | succ k2 ih =>
      rw [Function.iterate_succ_apply]
      have h2 : (getNextKey keys c).2 = (c + 1) % keys.length := rfl
      rw [h2, ih _ (Nat.mod_lt _ h0), Nat.mod_add_mod]
      congr 1
      omega

/-- Witness for C10 on a concrete two-credential pool at cursor 1. -/
theorem getNextKey_invariant_witness :
    (getNextKey ["a".data, "b".data] 1).1
      = (["a".data, "b".data] : List Str).get ⟨1, by decide⟩ ∧
    (getNextKey ["a".data, "b".data] 1).2
      = (1 + 1) % (["a".data, "b".data] : List Str).length ∧
    (getNextKey ["a".data, "b".data] 1).2 < (["a".data, "b".data] : List Str).length ∧
    (∀ c k, c < (["a".data, "b".data] : List Str).length →
      (fun j => (getNextKey ["a".data, "b".data] j).2)^[k] c
        = (c + k) % (["a".data, "b".data] : List Str).length) :=
  getNextKey_invariant _ 1 (by decide) (by decide)

/-- C4 (counterexample): the claim as stated is false — `validate_query`
does reject a statement containing `UNION SELECT`, but the execution path
(`QueryProcessor.execute_query`) never invokes validation, and passes the
statement to the Database Gateway, which executes it. -/
theorem unionSelect_reaches_gateway :
    (validateQuery (fun _ => (true, none))
        "SELECT a FROM t UNION SELECT b FROM u;".data).1 = false ∧
    processorExecuteQuery (fun _ => EngineOutcome.ok [] 0)
        "SELECT a FROM t UNION SELECT b FROM u;".data
      = Except.ok ⟨[], none, "SELECT a FROM t UNION SELECT b FROM u;".data⟩ ∧
    reSearch matchUnionSelectAt "SELECT a FROM t UNION SELECT b FROM u;".data = true :=
  ⟨by decide, rfl, by decide⟩

/-- C4 (amended): every statement containing `UNION` + whitespace + `SELECT`
(case-insensitive) is rejected by `validate_query` with the fixed reason,
for any database state; but `QueryProcessor.execute_query` does not call
`validate_query` — it hands the query to the Database Gateway unchanged, so
such a statement does reach the gateway unless a caller validates
separately. -/
theorem validateQuery_rejects_unionSelect (dbCheck : Str → Bool × Option Str)
    (engine : Str → EngineOutcome) (q a u w t b : Str)
    (hq : q = a ++ (u ++ w ++ t ++ b))
    (hu : pyUpper u = ['U', 'N', 'I', 'O', 'N'])
    (hwne : w ≠ []) (hw : ∀ x ∈ w, pyIsSpace x = true)
    (ht : pyUpper t = ['S', 'E', 'L', 'E', 'C', 'T']) :
    validateQuery dbCheck q = (false, some harmfulMsg) ∧
    processorExecuteQuery engine q = connectorExecuteQuery engine q := by
  refine ⟨?_, rfl⟩
  have hm : matchUnionSelectAt (u ++ w ++ t ++ b) = true :=
    matchUnionSelectAt_of_parts hu hwne hw ht
  have hs : reSearch matchUnionSelectAt q = true := by
    rw [hq]
    exact reSearch_append a hm
  cases h1 : reSearch matchSemiDropTableAt q with
  | true => simp [validateQuery, h1]
  | false => simp [validateQuery, h1, hs]

/-- Witness for C4 at the concrete statement
`SELECT a FROM t UNION SELECT b FROM u;`. -/
theorem validateQuery_rejects_unionSelect_witness :
    validateQuery (fun _ => (true, none))
        "SELECT a FROM t UNION SELECT b FROM u;".data = (false, some harmfulMsg) ∧
    processorExecuteQuery (fun _ => EngineOutcome.ok [] 0)
        "SELECT a FROM t UNION SELECT b FROM u;".data
      = connectorExecuteQuery (fun _ => EngineOutcome.ok [] 0)
        "SELECT a FROM t UNION SELECT b FROM u;".data :=
  validateQuery_rejects_unionSelect _ _ _
    "SELECT a FROM t ".data "UNION".data " ".data "SELECT".data " b FROM u;".data
    (by decide) (by decide) (by decide) (by decide) (by decide)

/-- C5 (counterexample): the claim says that with multiple PRAGMA statements
present, `cleanSql` keeps the first PRAGMA statement; on
`SELECT 1; PRAGMA a1; PRAGMA b2;` the code instead keeps the non-PRAGMA text
before the first PRAGMA statement. -/
theorem cleanSql_pragma_keeps_leading_text :
    cleanSqlQuery "SELECT 1; PRAGMA a1; PRAGMA b2;".data = "SELECT 1;".data ∧
    cleanSqlQuery "SELECT 1; PRAGMA a1; PRAGMA b2;".data ≠ "PRAGMA a1;".data :=
  ⟨by decide, by decide⟩

/-- C5 (amended): after stripping line comments and then block comments, when
`PRAGMA` occurs at most once (case-insensitively), a `;` is present, and the
text before the first `;` is non-blank, `cleanSql` returns that text,
stripped, with `;` appended; in particular
`cleanSql("SELECT 1; DROP TABLE x;") = "SELECT 1;"`, and a line comment is
removed before truncation.  (With more than one `PRAGMA` occurrence the code
returns the first non-blank segment of the split around full PRAGMA
statements — the text before the first PRAGMA when such text exists, not
necessarily the first PRAGMA statement.) -/
theorem cleanSql_first_statement (q : Str)
    (hdd : hasSub q ['-', '-'] = false) (hbc : hasSub q ['/', '*'] = false)
    (hp : countOcc (pyUpper q) ['P', 'R', 'A', 'G', 'M', 'A'] ≤ 1)
    (hsemi : ';' ∈ q) (hne : pyStrip (q.takeWhile (· ≠ ';')) ≠ []) :
    cleanSqlQuery q = pyStrip (q.takeWhile (· ≠ ';')) ++ [';'] ∧
    cleanSqlQuery "SELECT 1; DROP TABLE x;".data = "SELECT 1;".data ∧
    cleanSqlQuery "SELECT 1 -- c\n FROM t;".data = "SELECT 1 \n FROM t;".data := by
  refine ⟨?_, by decide, by decide⟩
  have hdd0 : countOcc q ['-', '-'] = 0 := by simpa [hasSub] using hdd
  have hbc0 : countOcc q ['/', '*'] = 0 := by simpa [hasSub] using hbc
  rw [cleanSqlQuery_of_clean hdd0 hbc0 hp, if_pos hsemi, if_pos hne]

/-- Witness for C5 at the spec's own example `SELECT 1; DROP TABLE x;`. -/
theorem cleanSql_first_statement_witness :
    cleanSqlQuery "SELECT 1; DROP TABLE x;".data
      = pyStrip (("SELECT 1; DROP TABLE x;".data).takeWhile (· ≠ ';')) ++ [';'] ∧
    cleanSqlQuery "SELECT 1; DROP TABLE x;".data = "SELECT 1;".data ∧
    cleanSqlQuery "SELECT 1 -- c\n FROM t;".data = "SELECT 1 \n FROM t;".data :=
  cleanSql_first_statement "SELECT 1; DROP TABLE x;".data
    (by decide) (by decide) (by decide) (by decide) (by decide)

/-- C6 (counterexample): `cleanSql` is not idempotent.  On
`a; b; PRAGMA a1; PRAGMA b2;` the first application takes the
multiple-PRAGMA branch and keeps `a; b;`, while the second application takes
the semicolon branch and truncates further to `a;`. -/
theorem cleanSql_not_idempotent :
    cleanSqlQuery (cleanSqlQuery "a; b; PRAGMA a1; PRAGMA b2;".data)
      ≠ cleanSqlQuery "a; b; PRAGMA a1; PRAGMA b2;".data ∧
    cleanSqlQuery "a; b; PRAGMA a1; PRAGMA b2;".data = "a; b;".data ∧
    cleanSqlQuery (cleanSqlQuery "a; b; PRAGMA a1; PRAGMA b2;".data) = "a;".data :=
  ⟨by decide, by decide, by decide⟩

/-- C6 (amended): `cleanSql` is idempotent on inputs that contain no comment
markers (`--` or `/*`) and at most one case-insensitive occurrence of
`PRAGMA`.  (In general a second application can truncate further: text
preceding multiple PRAGMA statements, or a `--` newly created by block-comment
removal, changes the second pass's branch.) -/
theorem cleanSql_idempotent_of_clean (s : Str)
    (hdd : hasSub s ['-', '-'] = false) (hbc : hasSub s ['/', '*'] = false)
    (hp : countOcc (pyUpper s) ['P', 'R', 'A', 'G', 'M', 'A'] ≤ 1) :
    cleanSqlQuery (cleanSqlQuery s) = cleanSqlQuery s :=
  cleanSqlQuery_idem_of_clean (by simpa [hasSub] using hdd)
    (by simpa [hasSub] using hbc) hp

/-- Witness for C6 on the spec's example input. -/
theorem cleanSql_idempotent_of_clean_witness :
    cleanSqlQuery (cleanSqlQuery "SELECT 1; DROP TABLE x;".data)
      = cleanSqlQuery "SELECT 1; DROP TABLE x;".data :=
  cleanSql_idempotent_of_clean "SELECT 1; DROP TABLE x;".data
    (by decide) (by decide) (by decide)

/-- C7: a fenced block tagged `sql` has first extraction priority:
`extractSql` on a response consisting of (or containing) the block
` ```sql\nSELECT * FROM t;\n``` ` returns exactly `SELECT * FROM t;`. -/
theorem extractSql_sql_fence :
    extractSqlFromResponse "```sql\nSELECT * FROM t;\n```".data
      = "SELECT * FROM t;".data ∧
    extractSqlFromResponse
        "Here is the query:\n```sql\nSELECT * FROM t;\n```\nThis counts rows.".data
      = "SELECT * FROM t;".data :=
  ⟨by decide, by decide⟩

/-- C8 (counterexample): in the plain-text fallback, lines after the blank
line that ends a run ARE included again when they begin with a SQL keyword:
on `SELECT 1\n\nSELECT 2` the extraction returns both lines, not just the
first run. -/
theorem extractSql_fallback_not_single_run :
    extractSqlFromResponse "SELECT 1\n\nSELECT 2".data = "SELECT 1\nSELECT 2".data ∧
    extractSqlFromResponse "SELECT 1\n\nSELECT 2".data ≠ "SELECT 1".data :=
  ⟨by decide, by decide⟩

/-- C8 (amended): the plain-text fallback collects a run starting at a
keyword line and ending at the first blank line, but a later keyword line
starts a new run that is also collected: for fence-free single-line texts
`u` and `v` both beginning (up to case and surrounding whitespace) with a
SQL keyword, the extraction of `u`, a blank line, then `v` yields the
sanitized join of BOTH `u` and `v`. -/
theorem extractSql_fallback_collects_later_runs (u v : Str)
    (hnu : '\n' ∉ u) (hnv : '\n' ∉ v) (hbu : '`' ∉ u) (hbv : '`' ∉ v)
    (hu : lineStartsWithKeyword (pyUpper (pyStrip u)) = true)
    (hv : lineStartsWithKeyword (pyUpper (pyStrip v)) = true) :
    extractSqlFromResponse (u ++ '\n' :: '\n' :: v)
      = cleanSqlQuery (pyStrip (u ++ '\n' :: v)) :=
  extractSql_fallback_two_runs hnu hnv hbu hbv hu hv

/-- Witness for C8 at `SELECT 1` / blank / `SELECT 2`. -/
theorem extractSql_fallback_collects_later_runs_witness :
    extractSqlFromResponse ("SELECT 1".data ++ '\n' :: '\n' :: "SELECT 2".data)
      = cleanSqlQuery (pyStrip ("SELECT 1".data ++ '\n' :: "SELECT 2".data)) :=
  extractSql_fallback_collects_later_runs "SELECT 1".data "SELECT 2".data
    (by decide) (by decide) (by decide) (by decide) (by decide) (by decide)

/-- C9: `build_messages` places the single system message (fixed
instructions plus the schema text) first and the new user turn last; a
history made of user/assistant pairs is windowed to its most recent
`MAX_HISTORY_LENGTH` pairs (oldest dropped first); and for every history the
result has at most `2 * MAX_HISTORY_LENGTH + 2` messages. -/
theorem buildMessages_windowing (schema query : String) :
    (∀ pairs : List (String × String),
      buildMessages schema query (pairMsgs pairs) =
        buildSystemMessage schema ::
          (pairMsgs (takeLastN MAX_HISTORY_LENGTH pairs) ++ [buildUserMessage query])) ∧
    (∀ history : List ChatMessage,
      (buildMessages schema query history).length ≤ 2 * MAX_HISTORY_LENGTH + 2) ∧
    (∀ history : List ChatMessage,
      (buildMessages schema query history).head? = some (buildSystemMessage schema)) ∧
    (∀ history : List ChatMessage,
      (buildMessages schema query history).getLast? = some (buildUserMessage query)) := by
  refine ⟨?_, ?_, fun _ => rfl, ?_⟩
  · intro pairs
    unfold buildMessages
    rw [show MAX_HISTORY_LENGTH * 2 = 2 * MAX_HISTORY_LENGTH from Nat.mul_comm _ _,
      takeLastN_pairMsgs]
  · intro history
    unfold buildMessages
    simp only [List.length_cons, List.length_append, List.length_nil]
    have h := takeLastN_length_le (MAX_HISTORY_LENGTH * 2) history
    unfold MAX_HISTORY_LENGTH at h ⊢
    omega
  · intro history
    unfold buildMessages
    rw [show buildSystemMessage schema ::
          (takeLastN (MAX_HISTORY_LENGTH * 2) history ++ [buildUserMessage query])
        = (buildSystemMessage schema :: takeLastN (MAX_HISTORY_LENGTH * 2) history)
            ++ [buildUserMessage query] from rfl]
    exact List.getLast?_concat _
